import Mathlib

/-!
Shallow embedding of the jsdomutils repository (src/computesize.js,
src/domutils.js, and an unnamed second ComputeSize implementation) and
proofs about its behaviour.

Conventions of the embedding:
* JS `undefined`/`null` optional values are `Option`.
* A JS function that can `throw` returns `Except JSError α`; the library
  only ever constructs `IllegalArgumentException`, and a property access
  on `null` is a `typeError`.
* JS numbers are modelled as `Int`/`Nat` where the code only handles
  integral pixel and dataset values; the implicit number-to-string
  coercion performed by `element.dataset[k] = n` and by `n + "px"` is the
  decimal representation, modelled by `intToString`/`natToString`.
* `parseInt(s, 10)` is modelled by `jsParseInt`, with `none` standing for
  the `NaN` result.
-/

/-- Errors observable from the library: the IllegalArgumentException the
code constructs itself, and the TypeError raised by a property access on
a null reference. -/
inductive JSError where
  | illegalArgument
  | typeError
deriving DecidableEq, Repr

/-- Modelled from the spec: `StringUtils.isDashCase` of the external
jsstringutils package, per the glossary "identifier style using hyphens
(margin-left)": nonempty, lowercase letters and hyphens only. -/
def isDashCase (s : String) : Bool :=
  !s.isEmpty && s.toList.all (fun c => c.isLower || c == '-')

/-- Modelled from the spec: `StringUtils.isCamelCase` of the external
jsstringutils package, per the glossary "no separators and internal
capitalization (marginLeft)": nonempty, letters only, first letter
lowercase. -/
def isCamelCase (s : String) : Bool :=
  match s.toList with
  | [] => false
  | c :: cs => c.isLower && (c :: cs).all Char.isAlpha

/-- Decimal digit character for a digit value below 10. -/
def digitChar (d : Nat) : Char := Char.ofNat (48 + d)

/-- Decimal digits of a natural number, least significant first, with a
step budget so that the recursion is structural. -/
def natDigitsRevAux : Nat → Nat → List Nat
  | 0, _ => []
  | fuel + 1, n => if n == 0 then [] else (n % 10) :: natDigitsRevAux fuel (n / 10)

/-- Decimal digits of a natural number, least significant first. -/
def natDigitsRev (n : Nat) : List Nat := natDigitsRevAux n n

/-- Decimal string of a natural number, the JS ToString coercion of an
integral nonnegative number. -/
def natToString (n : Nat) : String :=
  if n == 0 then "0" else ((natDigitsRev n).reverse.map digitChar).asString

/-- Decimal string of an integer, the JS ToString coercion of an
integral number. -/
def intToString (v : Int) : String :=
  if v < 0 then "-" ++ natToString v.natAbs else natToString v.natAbs

/-- Whitespace skipped by parseInt. -/
def isJsSpace (c : Char) : Bool :=
  c == ' ' || c == '\t' || c == '\n' || c == '\r'

/-- Value of the leading run of decimal digits, `none` when there is no
leading digit. -/
def parseLeadingDigits (cs : List Char) : Option Nat :=
  let ds := cs.takeWhile Char.isDigit
  if ds.isEmpty then none
  else some (ds.foldl (fun a c => a * 10 + (c.toNat - 48)) 0)

/-- Model of JS `parseInt(s, 10)`: skip whitespace, optional sign,
longest leading digit run; `none` models the NaN result. -/
def jsParseInt (s : String) : Option Int :=
  match s.toList.dropWhile isJsSpace with
  | [] => none
  | c :: rest =>
    if c == '-' then (parseLeadingDigits rest).map (fun n => -(n : Int))
    else if c == '+' then (parseLeadingDigits rest).map (fun n => (n : Int))
    else (parseLeadingDigits (c :: rest)).map (fun n => (n : Int))

/-- Association-list lookup modelling a JS string-keyed property read:
`none` models `undefined`. -/
def lookupAssoc (l : List (String × String)) (k : String) : Option String :=
  (l.find? (fun p => p.1 == k)).map (fun p => p.2)

/-- Association-list update modelling a JS string-keyed property write. -/
def setAssoc (l : List (String × String)) (k v : String) : List (String × String) :=
  if l.any (fun p => p.1 == k) then
    l.map (fun p => if p.1 == k then (k, v) else p)
  else
    l ++ [(k, v)]

/-- Model of `DOMTokenList.add`: append the token unless present. -/
def clAdd (l : List String) (c : String) : List String :=
  if l.contains c then l else l ++ [c]

/-- Model of `DOMTokenList.remove`. -/
def clRemove (l : List String) (c : String) : List String :=
  l.filter (fun x => x != c)

/-- Element state touched by the non-traversal operations: the class
list, the dataset key/value store, the inline style map, and the
platform-computed style view read by `getComputedStyle`. -/
structure Element where
  tagName : String := ""
  classList : List String := []
  dataset : List (String × String) := []
  style : List (String × String) := []
  computeStyle : List (String × String) := []
deriving Repr, DecidableEq

/-- Reading an inline style entry: `CSSStyleDeclaration` yields the
empty string for a property that was never set. -/
def styleRead (el : Element) (name : String) : String :=
  (lookupAssoc el.style name).getD ""

/-- Model of `computeStyle.getPropertyValue(name)`: empty string when
the platform reports no value. -/
def computedRead (el : Element) (name : String) : String :=
  (lookupAssoc el.computeStyle name).getD ""

/-- State held by a ComputeSize instance: the wrapped element and the
computed-style view snapshotted at construction. -/
structure ComputeSize where
  element : Element
  computeStyle : List (String × String)
deriving Repr, DecidableEq

/-- Model of `DomUtils.getComputeSize` and of the ComputeSize
constructor: wrap the element and snapshot its computed style. -/
def getComputeSize (el : Element) : ComputeSize :=
  { element := el, computeStyle := el.computeStyle }

namespace ComputeSize

/-- Model of `ComputeSize.getValue` (src/computesize.js): validate the
name is dash-case, then read the computed style. -/
def getValue (cs : ComputeSize) (name : String) : Except JSError String :=
  if !isDashCase name then .error .illegalArgument
  else .ok ((lookupAssoc cs.computeStyle name).getD "")

/-- Model of `ComputeSize.setValue` (src/computesize.js): validate the
name is dash-case, normalize undefined to the empty string, write the
inline style. -/
def setValue (cs : ComputeSize) (name : String) (value : Option String) :
    Except JSError ComputeSize :=
  if !isDashCase name then .error .illegalArgument
  else
    .ok { cs with element :=
      { cs.element with style := setAssoc cs.element.style name (value.getD "") } }

/-- Model of `ComputeSize.getPixelValue` (src/computesize.js): read the
computed value, drop the last two characters, parse base 10. -/
def getPixelValue (cs : ComputeSize) (name : String) : Except JSError (Option Int) :=
  (cs.getValue name).map (fun pixel => jsParseInt (pixel.dropRight 2))

/-- Model of `ComputeSize.setPixelValue` (src/computesize.js):
undefined or the empty string clears the style, otherwise append px.
A numeric argument n is represented by `some (intToString n)`, the JS
string coercion performed by `value + "px"`. -/
def setPixelValue (cs : ComputeSize) (name : String) (value : Option String) :
    Except JSError ComputeSize :=
  match value with
  | none => cs.setValue name (some "")
  | some s => if s == "" then cs.setValue name (some "")
              else cs.setValue name (some (s ++ "px"))

end ComputeSize

namespace ComputeSizeU

/-- Model of `ComputeSize.getValue` of the unnamed second implementation
(src/unnamed/part_000): read the computed style with no validation; the
function cannot throw. -/
def getValue (cs : ComputeSize) (name : String) : String :=
  (lookupAssoc cs.computeStyle name).getD ""

/-- Model of `ComputeSize.setValue` of the unnamed second implementation
(src/unnamed/part_000): normalize undefined to the empty string and
write the inline style, with no validation. -/
def setValue (cs : ComputeSize) (name : String) (value : Option String) : ComputeSize :=
  { cs with element :=
    { cs.element with style := setAssoc cs.element.style name (value.getD "") } }

/-- Model of `ComputeSize.getPixelValue` of the unnamed second
implementation (src/unnamed/part_000). -/
def getPixelValue (cs : ComputeSize) (name : String) : Option Int :=
  jsParseInt ((getValue cs name).dropRight 2)

/-- Model of `ComputeSize.setPixelValue` of the unnamed second
implementation (src/unnamed/part_000). -/
def setPixelValue (cs : ComputeSize) (name : String) (value : Option String) : ComputeSize :=
  match value with
  | none => setValue cs name (some "")
  | some s => if s == "" then setValue cs name (some "")
              else setValue cs name (some (s ++ "px"))

end ComputeSizeU

namespace DomUtils

/-- Model of `DomUtils.containsClassName`. -/
def containsClassName (classList : List String) (className : String) : Bool :=
  classList.contains className

/-- Model of `DomUtils.containsAllClassNames`: every given class name is
in the class list. -/
def containsAllClassNames (classList : List String) (classNames : List String) : Bool :=
  classNames.all (fun c => classList.contains c)

/-- Model of `DomUtils.setBooleanByClass`: presence of the class encodes
true. -/
def setBooleanByClass (el : Element) (name : String) (b : Bool) : Element :=
  if b then { el with classList := clAdd el.classList name }
  else { el with classList := clRemove el.classList name }

/-- Model of `DomUtils.getBooleanByClass`. -/
def getBooleanByClass (el : Element) (name : String) : Bool :=
  el.classList.contains name

/-- Model of `DomUtils.setOptionByClass`: reject a value outside the
options list, otherwise add the chosen class and remove every other
option class. -/
def setOptionByClass (el : Element) (options : List String) (optionValue : String) :
    Except JSError Element :=
  if !options.contains optionValue then .error .illegalArgument
  else .ok { el with classList :=
    (options.foldl
      (fun cl o => if optionValue == o then clAdd cl o else clRemove cl o)
      el.classList) }

/-- Model of `DomUtils.getOptionByClass`: first option present as a
class, in list order. -/
def getOptionByClass (el : Element) (options : List String) : Option String :=
  options.find? (fun o => el.classList.contains o)

/-- Model of `DomUtils.setStringInDataset`: validate camelCase, write
the dataset entry. -/
def setStringInDataset (el : Element) (name : String) (stringValue : String) :
    Except JSError Element :=
  if !isCamelCase name then .error .illegalArgument
  else .ok { el with dataset := setAssoc el.dataset name stringValue }

/-- Model of `DomUtils.getStringInDataset`. -/
def getStringInDataset (el : Element) (name : String) : Option String :=
  lookupAssoc el.dataset name

/-- Model of `DomUtils.setIntegerInDataset`: validate camelCase, write
the integer; the dataset store coerces the number to its decimal
string. -/
def setIntegerInDataset (el : Element) (name : String) (integerValue : Int) :
    Except JSError Element :=
  if !isCamelCase name then .error .illegalArgument
  else .ok { el with dataset := setAssoc el.dataset name (intToString integerValue) }

/-- Model of `DomUtils.getIntegerInDataset`: undefined (outer `none`)
when the key is absent, otherwise the parseInt result (inner `none`
models NaN). -/
def getIntegerInDataset (el : Element) (name : String) : Option (Option Int) :=
  (lookupAssoc el.dataset name).map jsParseInt

/-- Model of `DomUtils.setFloatInDataset`: validate camelCase, write the
value; the float value is carried as its already-coerced string form,
floating point itself being outside the embedding. -/
def setFloatInDataset (el : Element) (name : String) (floatValue : String) :
    Except JSError Element :=
  if !isCamelCase name then .error .illegalArgument
  else .ok { el with dataset := setAssoc el.dataset name floatValue }

/-- Model of `DomUtils.setBooleanInDataset`: validate camelCase, write
the boolean, which the dataset store coerces to "true" or "false". -/
def setBooleanInDataset (el : Element) (name : String) (booleanValue : Bool) :
    Except JSError Element :=
  if !isCamelCase name then .error .illegalArgument
  else .ok { el with dataset :=
    (setAssoc el.dataset name (if booleanValue then "true" else "false")) }

/-- Model of `DomUtils.getBooleanInDataset`: true exactly when the
stored string is the literal "true"; an absent key compares unequal. -/
def getBooleanInDataset (el : Element) (name : String) : Bool :=
  lookupAssoc el.dataset name == some "true"

/-- Model of `DomUtils.setPixelValueInStyle`: no name validation;
undefined or the empty string clears the inline style, otherwise append
px to the value (numbers arrive as their string coercion). -/
def setPixelValueInStyle (el : Element) (name : String) (pixelValue : Option String) :
    Except JSError Element :=
  match pixelValue with
  | none => .ok { el with style := setAssoc el.style name "" }
  | some s =>
    if s == "" then .ok { el with style := setAssoc el.style name "" }
    else .ok { el with style := setAssoc el.style name (s ++ "px") }

/-- Model of `DomUtils.getPixelValueInStyle`: no name validation; read
the inline style, undefined (outer `none`) when it is the empty string,
otherwise drop the last two characters and parse base 10. -/
def getPixelValueInStyle (el : Element) (name : String) :
    Except JSError (Option (Option Int)) :=
  let value := styleRead el name
  if value == "" then .ok none
  else .ok (some (jsParseInt (value.dropRight 2)))

end DomUtils

/-- Node of the platform DOM tree as the searches observe it:
`nodeType` 1 is ELEMENT_NODE, 3 is TEXT_NODE; `parent` and
`prevSibling` are `none` for a null reference. -/
structure DNode where
  nodeType : Nat := 3
  tagName : String := ""
  classList : List String := []
  parent : Option Nat := none
  prevSibling : Option Nat := none
deriving Repr, DecidableEq

/-- Tree of nodes addressed by index, together with a document-order
rank for each node used to express well-formedness. -/
structure DomTree where
  nodes : List DNode
  orders : List Nat
deriving Repr

/-- Node at an index; out-of-range indices behave as a detached text
node with null links. -/
def DomTree.node (t : DomTree) (i : Nat) : DNode := t.nodes.getD i {}

/-- Document-order rank of a node. -/
def DomTree.order (t : DomTree) (i : Nat) : Nat := t.orders.getD i 0

/-- Well-formedness of the tree: in a real DOM both the parent and a
previous sibling strictly precede a node in document order, so the rank
decreases along both link kinds. -/
def DomTree.WF (t : DomTree) : Prop :=
  (∀ i p, (t.node i).parent = some p → t.order p < t.order i) ∧
  (∀ i p, (t.node i).prevSibling = some p → t.order p < t.order i)

/-- Executable well-formedness check over the stored nodes. -/
def DomTree.wfCheck (t : DomTree) : Bool :=
  (List.range t.nodes.length).all fun i =>
    (match (t.node i).parent with
     | none => true
     | some p => decide (t.order p < t.order i)) &&
    (match (t.node i).prevSibling with
     | none => true
     | some p => decide (t.order p < t.order i))

/-- Loop guard shared by the four searches, evaluated at a non-null
current node: element !== topElement && element.tagName !== "BODY".
The stop-node comparison is by identity, the BODY comparison by tag. -/
def nodeGuard (t : DomTree) (i : Nat) (top : Option Nat) : Bool :=
  (match top with
   | none => true
   | some j => i != j) && (t.node i).tagName != "BODY"

/-- Predicate test applied at a node by the first three searches:
element nodes only; with both class and tag given both must hold, with
one given only that one, and with neither given no node matches. -/
def matchesPred (t : DomTree) (i : Nat) (className tagName : Option String) : Bool :=
  (t.node i).nodeType == 1 &&
    (match className, tagName with
     | some c, some g =>
       DomUtils.containsClassName (t.node i).classList c && (t.node i).tagName == g
     | some c, none => DomUtils.containsClassName (t.node i).classList c
     | none, some g => (t.node i).tagName == g
     | none, none => false)

/-- Loop body of `DomUtils.findElementAndParent`: test the guard on the
current node, test the predicate on that same node, then move to the
parent. Fuel bounds the iteration count; any terminating run of the JS
loop is reproduced with sufficient fuel. -/
def findElementAndParentGo (t : DomTree) (cls tag : Option String) (top : Option Nat) :
    Nat → Option Nat → Except JSError (Option Nat)
  | 0, _ => .ok none
  | _ + 1, none => .ok none
  | fuel + 1, some i =>
    if nodeGuard t i top then
      if matchesPred t i cls tag then .ok (some i)
      else findElementAndParentGo t cls tag top fuel (t.node i).parent
    else .ok none

/-- Model of `DomUtils.findElementAndParent` with fuel large enough for
any well-formed tree. -/
def findElementAndParent (t : DomTree) (n : Nat) (cls tag : Option String)
    (top : Option Nat) : Except JSError (Option Nat) :=
  findElementAndParentGo t cls tag top (t.order n + 1) (some n)

/-- Loop body of `DomUtils.findParentElement`: test the guard on the
current node, step to the parent, then test the predicate on the new
position; a null parent is dereferenced by the nodeType read and
raises a TypeError. -/
def findParentElementGo (t : DomTree) (cls tag : Option String) (top : Option Nat) :
    Nat → Option Nat → Except JSError (Option Nat)
  | 0, _ => .ok none
  | _ + 1, none => .ok none
  | fuel + 1, some i =>
    if nodeGuard t i top then
      match (t.node i).parent with
      | none => .error .typeError
      | some p =>
        if matchesPred t p cls tag then .ok (some p)
        else findParentElementGo t cls tag top fuel (some p)
    else .ok none

/-- Model of `DomUtils.findParentElement`. -/
def findParentElement (t : DomTree) (n : Nat) (cls tag : Option String)
    (top : Option Nat) : Except JSError (Option Nat) :=
  findParentElementGo t cls tag top (t.order n + 1) (some n)

/-- Step rule shared by the previous-sibling searches: move to the
previous sibling when there is one, otherwise to the parent. -/
def prevStep (t : DomTree) (i : Nat) : Option Nat :=
  match (t.node i).prevSibling with
  | none => (t.node i).parent
  | some p => some p

/-- Loop body of `DomUtils.findPreviousElementAndParent`: test the
guard on the current node, step to the previous sibling or parent, then
test the predicate on the new position; a null new position is
dereferenced by the nodeType read and raises a TypeError. -/
def findPreviousElementAndParentGo (t : DomTree) (cls tag : Option String)
    (top : Option Nat) : Nat → Option Nat → Except JSError (Option Nat)
  | 0, _ => .ok none
  | _ + 1, none => .ok none
  | fuel + 1, some i =>
    if nodeGuard t i top then
      match prevStep t i with
      | none => .error .typeError
      | some p =>
        if matchesPred t p cls tag then .ok (some p)
        else findPreviousElementAndParentGo t cls tag top fuel (some p)
    else .ok none

/-- Model of `DomUtils.findPreviousElementAndParent`. -/
def findPreviousElementAndParent (t : DomTree) (n : Nat) (cls tag : Option String)
    (top : Option Nat) : Except JSError (Option Nat) :=
  findPreviousElementAndParentGo t cls tag top (t.order n + 1) (some n)

/-- Loop body of `DomUtils.findPreviousElementAndParentByClassNames`:
same walk as the previous-sibling search, with the predicate requiring
every given class name simultaneously. -/
def findPreviousElementAndParentByClassNamesGo (t : DomTree) (classNames : List String)
    (top : Option Nat) : Nat → Option Nat → Except JSError (Option Nat)
  | 0, _ => .ok none
  | _ + 1, none => .ok none
  | fuel + 1, some i =>
    if nodeGuard t i top then
      match prevStep t i with
      | none => .error .typeError
      | some p =>
        if (t.node p).nodeType == 1 &&
            DomUtils.containsAllClassNames (t.node p).classList classNames then
          .ok (some p)
        else findPreviousElementAndParentByClassNamesGo t classNames top fuel (some p)
    else .ok none

/-- Model of `DomUtils.findPreviousElementAndParentByClassNames`. -/
def findPreviousElementAndParentByClassNames (t : DomTree) (n : Nat)
    (classNames : List String) (top : Option Nat) : Except JSError (Option Nat) :=
  findPreviousElementAndParentByClassNamesGo t classNames top (t.order n + 1) (some n)

/-- Four-node chain BODY, DIV, DIV.x, SPAN used as a concrete document:
node 0 is the SPAN leaf, node 1 the DIV with class x, node 2 the outer
DIV, node 3 the BODY root. -/
def treeA : DomTree :=
  { nodes :=
      [ { nodeType := 1, tagName := "SPAN", parent := some 1 },
        { nodeType := 1, tagName := "DIV", classList := ["x"], parent := some 2 },
        { nodeType := 1, tagName := "DIV", parent := some 3 },
        { nodeType := 1, tagName := "BODY" } ],
    orders := [3, 2, 1, 0] }

/-- Two-node document whose root carries the BODY tag and the class x:
node 0 is a SPAN child of the BODY-tagged node 1. -/
def treeB : DomTree :=
  { nodes :=
      [ { nodeType := 1, tagName := "SPAN", parent := some 1 },
        { nodeType := 1, tagName := "BODY", classList := ["x"] } ],
    orders := [1, 0] }

/-- One detached DIV element with a null parent and no BODY above it. -/
def treeC : DomTree :=
  { nodes := [ { nodeType := 1, tagName := "DIV" } ], orders := [0] }

/-- Sibling row DIV.a, DIV.b, DIV.c under a DIV parent below BODY:
node 0 is the DIV.c start node, node 1 DIV.b, node 2 DIV.a, node 3 the
parent DIV, node 4 the BODY root. -/
def treeSib : DomTree :=
  { nodes :=
      [ { nodeType := 1, tagName := "DIV", classList := ["c"],
          parent := some 3, prevSibling := some 1 },
        { nodeType := 1, tagName := "DIV", classList := ["b"],
          parent := some 3, prevSibling := some 2 },
        { nodeType := 1, tagName := "DIV", classList := ["a"], parent := some 3 },
        { nodeType := 1, tagName := "DIV", parent := some 4 },
        { nodeType := 1, tagName := "BODY" } ],
    orders := [4, 3, 2, 1, 0] }

-- sanity checks of the traversal embedding against the spec scenarios
example : findElementAndParent treeA 0 (some "x") none none = .ok (some 1) := rfl
example : findParentElement treeA 1 (some "x") none none = .ok none := rfl
example : findPreviousElementAndParentByClassNames treeSib 0 ["b"] none = .ok (some 1) := rfl
example : findParentElement treeC 0 (some "x") none none = .error .typeError := rfl
example : findParentElement treeB 0 (some "x") none none = .ok (some 1) := rfl
example : findParentElement treeA 0 (some "x") none (some 1) = .ok (some 1) := rfl
example : treeA.wfCheck = true := rfl
example : treeB.wfCheck = true := rfl
example : treeC.wfCheck = true := rfl
example : treeSib.wfCheck = true := rfl

/-- Discriminator for a non-throwing result. -/
def exceptOk {α : Type} : Except JSError α → Bool
  | .ok _ => true
  | .error _ => false

-- sanity checks of the embedding on concrete values
example : natToString 123 = "123" := rfl
example : intToString (-45) = "-45" := rfl
example : jsParseInt "108px" = some 108 := rfl
example : jsParseInt "au" = none := rfl
example : isDashCase "margin-left" = true := rfl
example : isDashCase "marginLeft" = false := rfl
example : isCamelCase "marginLeft" = true := rfl
example : isCamelCase "margin-left" = false := rfl

/-! helper lemmas -/

theorem lookupAssoc_map_set (l : List (String × String)) (k v : String)
    (hin : l.any (fun q => q.1 == k) = true) :
    lookupAssoc (l.map (fun q => if q.1 == k then (k, v) else q)) k = some v := by
  induction l with
  | nil => simp at hin
  | cons p rest ih =>
    rw [List.map_cons]
    by_cases hp : p.1 = k
    · rw [if_pos (by simp [hp])]
      unfold lookupAssoc
      rw [List.find?_cons_of_pos _ (by simp)]
      rfl
    · have hp' : (p.1 == k) = false := beq_false_of_ne hp
      rw [if_neg (by simp [hp])]
      have hrest : rest.any (fun q => q.1 == k) = true := by
        simpa [List.any_cons, hp'] using hin
      have hih := ih hrest
      unfold lookupAssoc at hih ⊢
      rw [List.find?_cons_of_neg _ (by simp [hp])]
      exact hih

theorem lookupAssoc_append_new (l : List (String × String)) (k v : String)
    (hout : l.any (fun q => q.1 == k) = false) :
    lookupAssoc (l ++ [(k, v)]) k = some v := by
  induction l with
  | nil => simp [lookupAssoc]
  | cons p rest ih =>
    have hp : (p.1 == k) = false := by
      by_contra hc
      have : (p.1 == k) = true := Bool.not_eq_false _ |>.mp hc
      simp [List.any_cons, this] at hout
    have hrest : rest.any (fun q => q.1 == k) = false := by
      simpa [List.any_cons, hp] using hout
    have := ih hrest
    simpa [lookupAssoc, List.find?_cons, hp] using this

theorem lookupAssoc_setAssoc (l : List (String × String)) (k v : String) :
    lookupAssoc (setAssoc l k v) k = some v := by
  by_cases h : l.any (fun q => q.1 == k) = true
  · rw [setAssoc, if_pos h]
    exact lookupAssoc_map_set l k v h
  · have h' : l.any (fun q => q.1 == k) = false := Bool.eq_false_iff.mpr h
    rw [setAssoc, if_neg (by simp [h'])]
    exact lookupAssoc_append_new l k v h'

theorem mem_clAdd_self (l : List String) (c : String) : c ∈ clAdd l c := by
  by_cases h : c ∈ l
  · simp [clAdd, h]
  · simp [clAdd, h]

theorem not_mem_clRemove_self (l : List String) (c : String) : c ∉ clRemove l c := by
  intro h
  rcases List.mem_filter.mp h with ⟨_, hc⟩
  simp at hc

theorem mem_clAdd_iff_of_ne (l : List String) (c d : String) (h : d ≠ c) :
    d ∈ clAdd l c ↔ d ∈ l := by
  by_cases hc : c ∈ l
  · simp [clAdd, hc]
  · simp [clAdd, hc, h]

theorem mem_clRemove_iff_of_ne (l : List String) (c d : String) (h : d ≠ c) :
    d ∈ clRemove l c ↔ d ∈ l := by
  constructor
  · intro hm
    exact (List.mem_filter.mp hm).1
  · intro hm
    exact List.mem_filter.mpr ⟨hm, by simp [h]⟩

theorem DomTree.wf_of_wfCheck (t : DomTree) (h : t.wfCheck = true) : t.WF := by
  have hall := List.all_eq_true.mp h
  have key : ∀ i, i < t.nodes.length →
      (∀ p, (t.node i).parent = some p → t.order p < t.order i) ∧
      (∀ p, (t.node i).prevSibling = some p → t.order p < t.order i) := by
    intro i hi
    have hb := hall i (List.mem_range.mpr hi)
    rw [Bool.and_eq_true] at hb
    constructor
    · intro p hp
      have h1 := hb.1
      rw [hp] at h1
      exact of_decide_eq_true h1
    · intro p hp
      have h2 := hb.2
      rw [hp] at h2
      exact of_decide_eq_true h2
  have hout : ∀ i, t.nodes.length ≤ i → t.node i = {} := by
    intro i hi
    show t.nodes.getD i {} = {}
    exact List.getD_eq_default _ _ hi
  constructor
  · intro i p hp
    by_cases hi : i < t.nodes.length
    · exact (key i hi).1 p hp
    · rw [hout i (Nat.le_of_not_lt hi)] at hp
      simp at hp
  · intro i p hp
    by_cases hi : i < t.nodes.length
    · exact (key i hi).2 p hp
    · rw [hout i (Nat.le_of_not_lt hi)] at hp
      simp at hp

theorem prevStep_order_lt (t : DomTree) (hwf : t.WF) (i p : Nat)
    (h : prevStep t i = some p) : t.order p < t.order i := by
  unfold prevStep at h
  cases hps : (t.node i).prevSibling with
  | none =>
    rw [hps] at h
    exact hwf.1 i p h
  | some q =>
    rw [hps] at h
    cases h
    exact hwf.2 i p hps

theorem findElementAndParentGo_guard (t : DomTree) (cls tag : Option String)
    (top : Option Nat) :
    ∀ fuel cur e, findElementAndParentGo t cls tag top fuel cur = .ok (some e) →
      nodeGuard t e top = true := by
  intro fuel
  induction fuel with
  | zero =>
    intro cur e h
    simp [findElementAndParentGo] at h
  | succ fuel ih =>
    intro cur e h
    cases cur with
    | none => simp [findElementAndParentGo] at h
    | some i =>
      rw [findElementAndParentGo] at h
      by_cases hg : nodeGuard t i top
      · rw [if_pos hg] at h
        by_cases hm : matchesPred t i cls tag
        · rw [if_pos hm] at h
          have : i = e := by simpa using h
          subst this
          exact hg
        · rw [if_neg hm] at h
          exact ih _ e h
      · rw [if_neg hg] at h
        simp at h

theorem findElementAndParentGo_stop (t : DomTree) (cls tag : Option String)
    (top : Option Nat) (fuel n : Nat) (hg : nodeGuard t n top = false) :
    findElementAndParentGo t cls tag top fuel (some n) = .ok none := by
  cases fuel with
  | zero => rfl
  | succ fuel =>
    rw [findElementAndParentGo, if_neg (by simp [hg])]

theorem findParentElementGo_stop (t : DomTree) (cls tag : Option String)
    (top : Option Nat) (fuel n : Nat) (hg : nodeGuard t n top = false) :
    findParentElementGo t cls tag top fuel (some n) = .ok none := by
  cases fuel with
  | zero => rfl
  | succ fuel =>
    rw [findParentElementGo, if_neg (by simp [hg])]

theorem findPreviousElementAndParentGo_stop (t : DomTree) (cls tag : Option String)
    (top : Option Nat) (fuel n : Nat) (hg : nodeGuard t n top = false) :
    findPreviousElementAndParentGo t cls tag top fuel (some n) = .ok none := by
  cases fuel with
  | zero => rfl
  | succ fuel =>
    rw [findPreviousElementAndParentGo, if_neg (by simp [hg])]

theorem findPreviousElementAndParentByClassNamesGo_stop (t : DomTree)
    (classNames : List String) (top : Option Nat) (fuel n : Nat)
    (hg : nodeGuard t n top = false) :
    findPreviousElementAndParentByClassNamesGo t classNames top fuel (some n) = .ok none := by
  cases fuel with
  | zero => rfl
  | succ fuel =>
    rw [findPreviousElementAndParentByClassNamesGo, if_neg (by simp [hg])]

theorem findParentElementGo_order (t : DomTree) (hwf : t.WF) (cls tag : Option String)
    (top : Option Nat) :
    ∀ fuel i e, findParentElementGo t cls tag top fuel (some i) = .ok (some e) →
      t.order e < t.order i := by
  intro fuel
  induction fuel with
  | zero =>
    intro i e h
    simp [findParentElementGo] at h
  | succ fuel ih =>
    intro i e h
    rw [findParentElementGo] at h
    by_cases hg : nodeGuard t i top
    · rw [if_pos hg] at h
      cases hpar : (t.node i).parent with
      | none =>
        rw [hpar] at h
        simp at h
      | some p =>
        rw [hpar] at h
        dsimp only at h
        have hlt : t.order p < t.order i := hwf.1 i p hpar
        by_cases hm : matchesPred t p cls tag
        · rw [if_pos hm] at h
          have : p = e := by simpa using h
          subst this
          exact hlt
        · rw [if_neg hm] at h
          exact Nat.lt_trans (ih p e h) hlt
    · rw [if_neg hg] at h
      simp at h

theorem findPreviousElementAndParentGo_order (t : DomTree) (hwf : t.WF)
    (cls tag : Option String) (top : Option Nat) :
    ∀ fuel i e, findPreviousElementAndParentGo t cls tag top fuel (some i) = .ok (some e) →
      t.order e < t.order i := by
  intro fuel
  induction fuel with
  | zero =>
    intro i e h
    simp [findPreviousElementAndParentGo] at h
  | succ fuel ih =>
    intro i e h
    rw [findPreviousElementAndParentGo] at h
    by_cases hg : nodeGuard t i top
    · rw [if_pos hg] at h
      cases hps : prevStep t i with
      | none =>
        rw [hps] at h
        simp at h
      | some p =>
        rw [hps] at h
        dsimp only at h
        have hlt : t.order p < t.order i := prevStep_order_lt t hwf i p hps
        by_cases hm : matchesPred t p cls tag
        · rw [if_pos hm] at h
          have : p = e := by simpa using h
          subst this
          exact hlt
        · rw [if_neg hm] at h
          exact Nat.lt_trans (ih p e h) hlt
    · rw [if_neg hg] at h
      simp at h

theorem findPreviousElementAndParentByClassNamesGo_order (t : DomTree) (hwf : t.WF)
    (classNames : List String) (top : Option Nat) :
    ∀ fuel i e,
      findPreviousElementAndParentByClassNamesGo t classNames top fuel (some i)
        = .ok (some e) →
      t.order e < t.order i := by
  intro fuel
  induction fuel with
  | zero =>
    intro i e h
    simp [findPreviousElementAndParentByClassNamesGo] at h
  | succ fuel ih =>
    intro i e h
    rw [findPreviousElementAndParentByClassNamesGo] at h
    by_cases hg : nodeGuard t i top
    · rw [if_pos hg] at h
      cases hps : prevStep t i with
      | none =>
        rw [hps] at h
        simp at h
      | some p =>
        rw [hps] at h
        dsimp only at h
        have hlt : t.order p < t.order i := prevStep_order_lt t hwf i p hps
        by_cases hm : ((t.node p).nodeType == 1 &&
            DomUtils.containsAllClassNames (t.node p).classList classNames) = true
        · rw [if_pos hm] at h
          have : p = e := by simpa using h
          subst this
          exact hlt
        · rw [if_neg hm] at h
          exact Nat.lt_trans (ih p e h) hlt
    · rw [if_neg hg] at h
      simp at h

theorem findElementAndParentGo_no_error (t : DomTree) (cls tag : Option String)
    (top : Option Nat) :
    ∀ fuel cur, ∃ r, findElementAndParentGo t cls tag top fuel cur = .ok r := by
  intro fuel
  induction fuel with
  | zero =>
    intro cur
    exact ⟨none, rfl⟩
  | succ fuel ih =>
    intro cur
    cases cur with
    | none => exact ⟨none, rfl⟩
    | some i =>
      rw [findElementAndParentGo]
      by_cases hg : nodeGuard t i top
      · rw [if_pos hg]
        by_cases hm : matchesPred t i cls tag
        · rw [if_pos hm]
          exact ⟨some i, rfl⟩
        · rw [if_neg hm]
          exact ih _
      · rw [if_neg hg]
        exact ⟨none, rfl⟩

theorem findParentElementGo_no_illegal (t : DomTree) (cls tag : Option String)
    (top : Option Nat) :
    ∀ fuel cur, findParentElementGo t cls tag top fuel cur ≠ .error .illegalArgument := by
  intro fuel
  induction fuel with
  | zero =>
    intro cur h
    simp [findParentElementGo] at h
  | succ fuel ih =>
    intro cur h
    cases cur with
    | none => simp [findParentElementGo] at h
    | some i =>
      rw [findParentElementGo] at h
      by_cases hg : nodeGuard t i top
      · rw [if_pos hg] at h
        cases hpar : (t.node i).parent with
        | none =>
          rw [hpar] at h
          simp at h
        | some p =>
          rw [hpar] at h
          dsimp only at h
          by_cases hm : matchesPred t p cls tag
          · rw [if_pos hm] at h
            simp at h
          · rw [if_neg hm] at h
            exact ih _ h
      · rw [if_neg hg] at h
        simp at h

theorem findPreviousElementAndParentGo_no_illegal (t : DomTree)
    (cls tag : Option String) (top : Option Nat) :
    ∀ fuel cur,
      findPreviousElementAndParentGo t cls tag top fuel cur ≠ .error .illegalArgument := by
  intro fuel
  induction fuel with
  | zero =>
    intro cur h
    simp [findPreviousElementAndParentGo] at h
  | succ fuel ih =>
    intro cur h
    cases cur with
    | none => simp [findPreviousElementAndParentGo] at h
    | some i =>
      rw [findPreviousElementAndParentGo] at h
      by_cases hg : nodeGuard t i top
      · rw [if_pos hg] at h
        cases hps : prevStep t i with
        | none =>
          rw [hps] at h
          simp at h
        | some p =>
          rw [hps] at h
          dsimp only at h
          by_cases hm : matchesPred t p cls tag
          · rw [if_pos hm] at h
            simp at h
          · rw [if_neg hm] at h
            exact ih _ h
      · rw [if_neg hg] at h
        simp at h

theorem findPreviousElementAndParentByClassNamesGo_no_illegal (t : DomTree)
    (classNames : List String) (top : Option Nat) :
    ∀ fuel cur,
      findPreviousElementAndParentByClassNamesGo t classNames top fuel cur
        ≠ .error .illegalArgument := by
  intro fuel
  induction fuel with
  | zero =>
    intro cur h
    simp [findPreviousElementAndParentByClassNamesGo] at h
  | succ fuel ih =>
    intro cur h
    cases cur with
    | none => simp [findPreviousElementAndParentByClassNamesGo] at h
    | some i =>
      rw [findPreviousElementAndParentByClassNamesGo] at h
      by_cases hg : nodeGuard t i top
      · rw [if_pos hg] at h
        cases hps : prevStep t i with
        | none =>
          rw [hps] at h
          simp at h
        | some p =>
          rw [hps] at h
          dsimp only at h
          by_cases hm : ((t.node p).nodeType == 1 &&
              DomUtils.containsAllClassNames (t.node p).classList classNames) = true
          · rw [if_pos hm] at h
            simp at h
          · rw [if_neg hm] at h
            exact ih _ h
      · rw [if_neg hg] at h
        simp at h

theorem digitChar_fin :
    ∀ d : Fin 10,
      isJsSpace (digitChar d.val) = false ∧ Char.isDigit (digitChar d.val) = true ∧
      (digitChar d.val).toNat - 48 = d.val ∧ (digitChar d.val == '-') = false ∧
      (digitChar d.val == '+') = false := by
  decide

theorem natDigitsRevAux_lt10 :
    ∀ fuel n, ∀ d ∈ natDigitsRevAux fuel n, d < 10 := by
  intro fuel
  induction fuel with
  | zero =>
    intro n d hd
    simp [natDigitsRevAux] at hd
  | succ fuel ih =>
    intro n d hd
    rw [natDigitsRevAux] at hd
    by_cases hn : (n == 0) = true
    · rw [if_pos hn] at hd
      simp at hd
    · rw [if_neg hn] at hd
      rcases List.mem_cons.mp hd with h | h
      · subst h
        exact Nat.mod_lt _ (by decide)
      · exact ih _ d h

theorem natDigitsRevAux_fold :
    ∀ fuel n, n ≤ fuel →
      (natDigitsRevAux fuel n).reverse.foldl (fun a d => a * 10 + d) 0 = n := by
  intro fuel
  induction fuel with
  | zero =>
    intro n hn
    have : n = 0 := Nat.le_zero.mp hn
    subst this
    rfl
  | succ fuel ih =>
    intro n hn
    rw [natDigitsRevAux]
    by_cases hz : (n == 0) = true
    · rw [if_pos hz]
      have : n = 0 := by simpa using hz
      simp [this]
    · rw [if_neg hz]
      have hn0 : n ≠ 0 := by simpa using hz
      have hdivlt : n / 10 < n := Nat.div_lt_self (Nat.pos_of_ne_zero hn0) (by decide)
      have hdiv : n / 10 ≤ fuel := by omega
      have hih := ih (n / 10) hdiv
      rw [List.reverse_cons, List.foldl_append, hih]
      simp only [List.foldl_cons, List.foldl_nil]
      omega

theorem charFold_eq :
    ∀ (l : List Nat), (∀ d ∈ l, d < 10) → ∀ a : Nat,
      (l.map digitChar).foldl (fun acc c => acc * 10 + (c.toNat - 48)) a
        = l.foldl (fun acc d => acc * 10 + d) a := by
  intro l
  induction l with
  | nil =>
    intro _ a
    rfl
  | cons d rest ih =>
    intro hl a
    have hd : d < 10 := hl d (List.mem_cons_self _ _)
    have hrest : ∀ x ∈ rest, x < 10 := fun x hx => hl x (List.mem_cons_of_mem _ hx)
    have hchar := (digitChar_fin ⟨d, hd⟩).2.2.1
    simp only [List.map_cons, List.foldl_cons]
    rw [hchar]
    exact ih hrest _

theorem parseLeadingDigits_all_digits (l : List Nat) (hd : ∀ d ∈ l, d < 10)
    (hne : l ≠ []) :
    parseLeadingDigits (l.map digitChar) = some (l.foldl (fun a d => a * 10 + d) 0) := by
  have hdig : ∀ c ∈ l.map digitChar, Char.isDigit c = true := by
    intro c hc
    rcases List.mem_map.mp hc with ⟨d, hdl, rfl⟩
    exact (digitChar_fin ⟨d, hd d hdl⟩).2.1
  have htake : (l.map digitChar).takeWhile Char.isDigit = l.map digitChar :=
    List.takeWhile_eq_self_iff.mpr hdig
  have hempty : (l.map digitChar).isEmpty = false := by
    cases l with
    | nil => exact absurd rfl hne
    | cons x xs => rfl
  unfold parseLeadingDigits
  rw [htake]
  rw [if_neg (by simp [hempty])]
  rw [charFold_eq l hd 0]

theorem natDigitsRev_ne_nil (n : Nat) (hn : n ≠ 0) : natDigitsRev n ≠ [] := by
  unfold natDigitsRev
  cases n with
  | zero => exact absurd rfl hn
  | succ m =>
    rw [natDigitsRevAux]
    rw [if_neg (by simp)]
    exact List.cons_ne_nil _ _

theorem parseLeadingDigits_natToString (n : Nat) :
    parseLeadingDigits (natToString n).toList = some n := by
  by_cases hz : n = 0
  · subst hz
    rfl
  · have hlist : (natToString n).toList = ((natDigitsRev n).reverse.map digitChar) := by
      unfold natToString
      rw [if_neg (by simpa using hz)]
      rfl
    rw [hlist]
    have hd : ∀ d ∈ (natDigitsRev n).reverse, d < 10 := by
      intro d hdm
      exact natDigitsRevAux_lt10 n n d (List.mem_reverse.mp hdm)
    have hne : (natDigitsRev n).reverse ≠ [] := by
      intro hcon
      exact natDigitsRev_ne_nil n hz (by simpa using congrArg List.reverse hcon)
    rw [parseLeadingDigits_all_digits _ hd hne]
    unfold natDigitsRev
    rw [natDigitsRevAux_fold n n (Nat.le_refl n)]

theorem jsParseInt_natToString (n : Nat) : jsParseInt (natToString n) = some (n : Int) := by
  by_cases hz : n = 0
  · subst hz
    rfl
  · have hlist : (natToString n).toList = ((natDigitsRev n).reverse.map digitChar) := by
      unfold natToString
      rw [if_neg (by simpa using hz)]
      rfl
    have hd : ∀ d ∈ (natDigitsRev n).reverse, d < 10 := by
      intro d hdm
      exact natDigitsRevAux_lt10 n n d (List.mem_reverse.mp hdm)
    unfold jsParseInt
    rw [hlist]
    cases hrl : (natDigitsRev n).reverse with
    | nil =>
      exact absurd (by simpa using congrArg List.reverse hrl) (natDigitsRev_ne_nil n hz)
    | cons d ds =>
      have hd0 : d < 10 := by
        apply hd
        rw [hrl]
        exact List.mem_cons_self _ _
      have hfin := digitChar_fin ⟨d, hd0⟩
      rw [List.map_cons]
      rw [List.dropWhile_cons]
      rw [if_neg (by simp [hfin.1])]
      dsimp only
      rw [if_neg (by simp [hfin.2.2.2.1]), if_neg (by simp [hfin.2.2.2.2])]
      rw [← List.map_cons, ← hrl]
      have := parseLeadingDigits_natToString n
      rw [hlist] at this
      rw [this]
      rfl

theorem jsParseInt_intToString (v : Int) : jsParseInt (intToString v) = some v := by
  by_cases hv : v < 0
  · unfold intToString
    rw [if_pos hv]
    have hdata : ("-" ++ natToString v.natAbs).toList = '-' :: (natToString v.natAbs).toList := by
      show ("-" ++ natToString v.natAbs).data = '-' :: (natToString v.natAbs).data
      rw [String.data_append]
      rfl
    unfold jsParseInt
    rw [hdata]
    rw [List.dropWhile_cons]
    rw [if_neg (by decide)]
    dsimp only
    rw [if_pos (by decide)]
    rw [parseLeadingDigits_natToString v.natAbs]
    have habs : -((v.natAbs : Nat) : Int) = v := by omega
    show some (-((v.natAbs : Nat) : Int)) = some v
    rw [habs]
  · unfold intToString
    rw [if_neg hv]
    rw [jsParseInt_natToString v.natAbs]
    have : ((v.natAbs : Nat) : Int) = v := by omega
    rw [this]

theorem natToString_ne_empty (n : Nat) : natToString n ≠ "" := by
  intro hcon
  have : (natToString n).toList = [] := by rw [hcon]; rfl
  by_cases hz : n = 0
  · subst hz
    simp [natToString] at this
  · have hlist : (natToString n).toList = ((natDigitsRev n).reverse.map digitChar) := by
      unfold natToString
      rw [if_neg (by simpa using hz)]
      rfl
    rw [hlist] at this
    have hne : (natDigitsRev n).reverse ≠ [] := by
      intro hcon2
      exact natDigitsRev_ne_nil n hz (by simpa using congrArg List.reverse hcon2)
    exact hne (List.map_eq_nil_iff.mp this)

theorem contains_eq_true_iff (l : List String) (c : String) :
    l.contains c = true ↔ c ∈ l := by
  simp

theorem foldOpt_mem_v (v : String) :
    ∀ (opts cl : List String), v ∈ cl →
      v ∈ opts.foldl (fun cl o => if v == o then clAdd cl o else clRemove cl o) cl := by
  intro opts
  induction opts with
  | nil =>
    intro cl h
    exact h
  | cons o rest ih =>
    intro cl h
    simp only [List.foldl_cons]
    by_cases ho : v = o
    · rw [if_pos (by simp [ho])]
      subst ho
      exact ih _ (mem_clAdd_self cl v)
    · rw [if_neg (by simp [ho])]
      exact ih _ ((mem_clRemove_iff_of_ne cl o v ho).mpr h)

theorem foldOpt_mem (v : String) :
    ∀ (opts cl : List String), v ∈ opts →
      v ∈ opts.foldl (fun cl o => if v == o then clAdd cl o else clRemove cl o) cl := by
  intro opts
  induction opts with
  | nil =>
    intro cl h
    simp at h
  | cons o rest ih =>
    intro cl h
    simp only [List.foldl_cons]
    by_cases ho : v = o
    · rw [if_pos (by simp [ho])]
      subst ho
      exact foldOpt_mem_v v rest _ (mem_clAdd_self cl v)
    · rw [if_neg (by simp [ho])]
      rcases List.mem_cons.mp h with h1 | h1
      · exact absurd h1 ho
      · exact ih _ h1

theorem foldOpt_not_mem (v : String) :
    ∀ (opts cl : List String) (x : String), x ≠ v → x ∉ cl →
      x ∉ opts.foldl (fun cl o => if v == o then clAdd cl o else clRemove cl o) cl := by
  intro opts
  induction opts with
  | nil =>
    intro cl x _ hx
    exact hx
  | cons o rest ih =>
    intro cl x hxv hx
    simp only [List.foldl_cons]
    by_cases hvo : v = o
    · rw [if_pos (by simp [hvo])]
      subst hvo
      apply ih _ x hxv
      intro hc
      exact hx ((mem_clAdd_iff_of_ne cl v x hxv).mp hc)
    · rw [if_neg (by simp [hvo])]
      by_cases hox : o = x
      · subst hox
        exact ih _ _ hxv (not_mem_clRemove_self cl _)
      · apply ih _ x hxv
        intro hc
        exact hx ((mem_clRemove_iff_of_ne cl o x (fun he => hox he.symm)).mp hc)

theorem foldOpt_elem_not_mem (v : String) :
    ∀ (opts cl : List String) (x : String), x ∈ opts → x ≠ v →
      x ∉ opts.foldl (fun cl o => if v == o then clAdd cl o else clRemove cl o) cl := by
  intro opts
  induction opts with
  | nil =>
    intro cl x hx _
    simp at hx
  | cons o rest ih =>
    intro cl x hx hxv
    simp only [List.foldl_cons]
    rcases List.mem_cons.mp hx with h1 | h1
    · subst h1
      rw [if_neg (by simp only [beq_iff_eq]; exact Ne.symm hxv)]
      exact foldOpt_not_mem v rest _ _ hxv (not_mem_clRemove_self cl _)
    · by_cases hvo : v = o
      · rw [if_pos (by simp [hvo])]
        exact ih _ x h1 hxv
      · rw [if_neg (by simp [hvo])]
        exact ih _ x h1 hxv

theorem find_first_only_v (L : List String) (v : String) :
    ∀ opts : List String, v ∈ opts → v ∈ L → (∀ o ∈ opts, o ≠ v → o ∉ L) →
      opts.find? (fun o => L.contains o) = some v := by
  intro opts
  induction opts with
  | nil =>
    intro h _ _
    simp at h
  | cons o rest ih =>
    intro hvm hvL hforall
    by_cases ho : o = v
    · subst ho
      exact List.find?_cons_of_pos _ (by simpa [contains_eq_true_iff] using hvL)
    · have hno : o ∉ L := hforall o (List.mem_cons_self _ _) ho
      rw [List.find?_cons_of_neg _ (by simpa [contains_eq_true_iff] using hno)]
      have hvrest : v ∈ rest := by
        rcases List.mem_cons.mp hvm with h1 | h1
        · exact absurd h1.symm ho
        · exact h1
      exact ih hvrest hvL (fun x hx hxv => hforall x (List.mem_cons_of_mem _ hx) hxv)

theorem nodeGuard_false_of (t : DomTree) (n : Nat) (top : Option Nat)
    (h : top = some n ∨ (t.node n).tagName = "BODY") : nodeGuard t n top = false := by
  rcases h with h | h
  · subst h
    simp [nodeGuard]
  · simp [nodeGuard, h]

/-! claim theorems -/

/-- Claim C1, amended: the self-or-ancestor search never produces the
stop node or a BODY-tagged element, and every variant returns the unset
result at once when the walk position tested by the loop guard is the
stop node or carries the BODY tag (a tag-equality test, not an identity
test); the strict-ancestor and previous-sibling variants, however, test
the predicate on a freshly stepped-to node before the guard sees it, so
they can return the stop node or a BODY-tagged element (see the
counterexample). -/
theorem claim_c1_amended :
    (∀ (t : DomTree) (cls tag : Option String) (top : Option Nat) (fuel : Nat)
        (cur : Option Nat) (e : Nat),
      findElementAndParentGo t cls tag top fuel cur = .ok (some e) →
        top ≠ some e ∧ (t.node e).tagName ≠ "BODY") ∧
    (∀ (t : DomTree) (cls tag : Option String) (top : Option Nat) (fuel n : Nat),
      top = some n ∨ (t.node n).tagName = "BODY" →
        findElementAndParentGo t cls tag top fuel (some n) = .ok none ∧
        findParentElementGo t cls tag top fuel (some n) = .ok none ∧
        findPreviousElementAndParentGo t cls tag top fuel (some n) = .ok none) ∧
    (∀ (t : DomTree) (classNames : List String) (top : Option Nat) (fuel n : Nat),
      top = some n ∨ (t.node n).tagName = "BODY" →
        findPreviousElementAndParentByClassNamesGo t classNames top fuel (some n)
          = .ok none) := by
  refine ⟨?_, ?_, ?_⟩
  · intro t cls tag top fuel cur e h
    have hg := findElementAndParentGo_guard t cls tag top fuel cur e h
    constructor
    · intro hc
      subst hc
      simp [nodeGuard] at hg
    · intro hc
      simp [nodeGuard, hc] at hg
  · intro t cls tag top fuel n h
    have hg := nodeGuard_false_of t n top h
    exact ⟨findElementAndParentGo_stop t cls tag top fuel n hg,
      findParentElementGo_stop t cls tag top fuel n hg,
      findPreviousElementAndParentGo_stop t cls tag top fuel n hg⟩
  · intro t classNames top fuel n h
    exact findPreviousElementAndParentByClassNamesGo_stop t classNames top fuel n
      (nodeGuard_false_of t n top h)

/-- Witness for claim C1: the self-or-ancestor guarantee applied to the
concrete four-node document, where the search finds node 1. -/
theorem claim_c1_amended_witness :
    (none : Option Nat) ≠ some 1 ∧ (treeA.node 1).tagName ≠ "BODY" :=
  claim_c1_amended.1 treeA (some "x") none none 4 (some 0) 1 rfl

/-- Counterexample to claim C1 as stated: the strict-ancestor walk
steps to the BODY-tagged root of `treeB` and returns it because it
matches the class predicate, and on `treeA` it returns the very node
supplied as the stop node. -/
theorem claim_c1_counterexample :
    findParentElement treeB 0 (some "x") none none = .ok (some 1) ∧
    (treeB.node 1).tagName = "BODY" ∧
    findParentElement treeA 0 (some "x") none (some 1) = .ok (some 1) :=
  ⟨rfl, rfl, rfl⟩

/-- Claim C3: under the document-order well-formedness every real DOM
tree enjoys, the strict-ancestor search and both previous-sibling
searches never return their starting node, while the self-or-ancestor
search can return its starting node, as it does on the concrete
document `treeA`. -/
theorem claim_c3 :
    (∀ t : DomTree, t.WF → ∀ (cls tag : Option String) (top : Option Nat)
        (fuel n e : Nat),
      findParentElementGo t cls tag top fuel (some n) = .ok (some e) → e ≠ n) ∧
    (∀ t : DomTree, t.WF → ∀ (cls tag : Option String) (top : Option Nat)
        (fuel n e : Nat),
      findPreviousElementAndParentGo t cls tag top fuel (some n) = .ok (some e) →
        e ≠ n) ∧
    (∀ t : DomTree, t.WF → ∀ (classNames : List String) (top : Option Nat)
        (fuel n e : Nat),
      findPreviousElementAndParentByClassNamesGo t classNames top fuel (some n)
        = .ok (some e) → e ≠ n) ∧
    findElementAndParent treeA 1 (some "x") none none = .ok (some 1) := by
  refine ⟨?_, ?_, ?_, rfl⟩
  · intro t hwf cls tag top fuel n e h heq
    have := findParentElementGo_order t hwf cls tag top fuel n e h
    subst heq
    exact Nat.lt_irrefl _ this
  · intro t hwf cls tag top fuel n e h heq
    have := findPreviousElementAndParentGo_order t hwf cls tag top fuel n e h
    subst heq
    exact Nat.lt_irrefl _ this
  · intro t hwf classNames top fuel n e h heq
    have := findPreviousElementAndParentByClassNamesGo_order t hwf classNames top fuel n e h
    subst heq
    exact Nat.lt_irrefl _ this

/-- Witness for claim C3: on the concrete document `treeB` the
strict-ancestor search returns node 1 from start node 0, and the
guarantee yields that the result differs from the start. -/
theorem claim_c3_witness : (1 : Nat) ≠ 0 :=
  claim_c3.1 treeB (DomTree.wf_of_wfCheck treeB (by decide)) (some "x") none none
    2 0 1 rfl

/-- Claim C2, amended: the only error the library itself constructs is
IllegalArgument, raised in exactly the three documented situations
(non-dash-case name to the ComputeSize accessors, non-camelCase key to
a typed dataset setter, value outside the options list for
setOptionByClass), and every other modelled operation completes without
raising; except that the strict-ancestor and previous-sibling searches
dereference a null parent and so raise a TypeError, not an
IllegalArgument, when the parent chain ends before reaching BODY or the
stop node (see the counterexample). -/
theorem claim_c2_amended :
    (∀ (cs : ComputeSize) (name : String), isDashCase name = false →
      cs.getValue name = .error .illegalArgument ∧
      (∀ v, cs.setValue name v = .error .illegalArgument) ∧
      cs.getPixelValue name = .error .illegalArgument ∧
      (∀ v, cs.setPixelValue name v = .error .illegalArgument)) ∧
    (∀ (cs : ComputeSize) (name : String), isDashCase name = true →
      exceptOk (cs.getValue name) = true ∧
      (∀ v, exceptOk (cs.setValue name v) = true) ∧
      exceptOk (cs.getPixelValue name) = true ∧
      (∀ v, exceptOk (cs.setPixelValue name v) = true)) ∧
    (∀ (el : Element) (name : String), isCamelCase name = false →
      (∀ v, DomUtils.setStringInDataset el name v = .error .illegalArgument) ∧
      (∀ v, DomUtils.setIntegerInDataset el name v = .error .illegalArgument) ∧
      (∀ v, DomUtils.setFloatInDataset el name v = .error .illegalArgument) ∧
      (∀ b, DomUtils.setBooleanInDataset el name b = .error .illegalArgument)) ∧
    (∀ (el : Element) (name : String), isCamelCase name = true →
      (∀ v, exceptOk (DomUtils.setStringInDataset el name v) = true) ∧
      (∀ v, exceptOk (DomUtils.setIntegerInDataset el name v) = true) ∧
      (∀ v, exceptOk (DomUtils.setFloatInDataset el name v) = true) ∧
      (∀ b, exceptOk (DomUtils.setBooleanInDataset el name b) = true)) ∧
    (∀ (el : Element) (options : List String) (v : String),
      (v ∉ options → DomUtils.setOptionByClass el options v = .error .illegalArgument) ∧
      (v ∈ options → exceptOk (DomUtils.setOptionByClass el options v) = true)) ∧
    (∀ (el : Element) (name : String) (pv : Option String),
      exceptOk (DomUtils.setPixelValueInStyle el name pv) = true ∧
      exceptOk (DomUtils.getPixelValueInStyle el name) = true) ∧
    (∀ (t : DomTree) (cls tag : Option String) (top : Option Nat) (fuel : Nat)
        (cur : Option Nat),
      exceptOk (findElementAndParentGo t cls tag top fuel cur) = true) ∧
    (∀ (t : DomTree) (cls tag : Option String) (classNames : List String)
        (top : Option Nat) (fuel : Nat) (cur : Option Nat),
      findParentElementGo t cls tag top fuel cur ≠ .error .illegalArgument ∧
      findPreviousElementAndParentGo t cls tag top fuel cur ≠ .error .illegalArgument ∧
      findPreviousElementAndParentByClassNamesGo t classNames top fuel cur
        ≠ .error .illegalArgument) := by
  refine ⟨?_, ?_, ?_, ?_, ?_, ?_, ?_, ?_⟩
  · intro cs name h
    refine ⟨?_, ?_, ?_, ?_⟩
    · simp [ComputeSize.getValue, h]
    · intro v
      simp [ComputeSize.setValue, h]
    · simp [ComputeSize.getPixelValue, ComputeSize.getValue, h, Except.map]
    · intro v
      cases v with
      | none => simp [ComputeSize.setPixelValue, ComputeSize.setValue, h]
      | some s =>
        by_cases hs : (s == "") = true
        · simp [ComputeSize.setPixelValue, ComputeSize.setValue, h, hs]
        · simp [ComputeSize.setPixelValue, ComputeSize.setValue, h, hs]
  · intro cs name h
    refine ⟨?_, ?_, ?_, ?_⟩
    · simp [ComputeSize.getValue, h, exceptOk]
    · intro v
      simp [ComputeSize.setValue, h, exceptOk]
    · simp [ComputeSize.getPixelValue, ComputeSize.getValue, h, exceptOk, Except.map]
    · intro v
      cases v with
      | none => simp [ComputeSize.setPixelValue, ComputeSize.setValue, h, exceptOk]
      | some s =>
        by_cases hs : (s == "") = true
        · simp [ComputeSize.setPixelValue, ComputeSize.setValue, h, hs, exceptOk]
        · simp [ComputeSize.setPixelValue, ComputeSize.setValue, h, hs, exceptOk]
  · intro el name h
    refine ⟨?_, ?_, ?_, ?_⟩ <;> intro v <;>
      simp [DomUtils.setStringInDataset, DomUtils.setIntegerInDataset,
        DomUtils.setFloatInDataset, DomUtils.setBooleanInDataset, h]
  · intro el name h
    refine ⟨?_, ?_, ?_, ?_⟩ <;> intro v <;>
      simp [DomUtils.setStringInDataset, DomUtils.setIntegerInDataset,
        DomUtils.setFloatInDataset, DomUtils.setBooleanInDataset, h, exceptOk]
  · intro el options v
    constructor
    · intro hv
      have : options.contains v = false := by
        rw [← Bool.not_eq_true]
        intro hc
        exact hv ((contains_eq_true_iff options v).mp hc)
      simp [DomUtils.setOptionByClass, this, hv]
    · intro hv
      have : options.contains v = true := (contains_eq_true_iff options v).mpr hv
      simp [DomUtils.setOptionByClass, this, hv, exceptOk]
  · intro el name pv
    constructor
    · cases pv with
      | none => simp [DomUtils.setPixelValueInStyle, exceptOk]
      | some s =>
        by_cases hs : (s == "") = true
        · simp [DomUtils.setPixelValueInStyle, hs, exceptOk]
        · simp [DomUtils.setPixelValueInStyle, hs, exceptOk]
    · by_cases hv : (styleRead el name == "") = true
      · simp [DomUtils.getPixelValueInStyle, hv, exceptOk]
      · simp [DomUtils.getPixelValueInStyle, hv, exceptOk]
  · intro t cls tag top fuel cur
    rcases findElementAndParentGo_no_error t cls tag top fuel cur with ⟨r, hr⟩
    rw [hr]
    rfl
  · intro t cls tag classNames top fuel cur
    exact ⟨findParentElementGo_no_illegal t cls tag top fuel cur,
      findPreviousElementAndParentGo_no_illegal t cls tag top fuel cur,
      findPreviousElementAndParentByClassNamesGo_no_illegal t classNames top fuel cur⟩

/-- Witness for claim C2: the non-dash-case name marginLeft makes the
ComputeSize read accessor raise IllegalArgument on a concrete
instance. -/
theorem claim_c2_amended_witness :
    ComputeSize.getValue (getComputeSize {}) "marginLeft" = .error .illegalArgument :=
  (claim_c2_amended.1 (getComputeSize {}) "marginLeft" (by decide)).1

/-- Counterexample to claim C2 as stated: on the detached element of
`treeC`, whose parent chain ends before any BODY or stop node, the
strict-ancestor search raises a TypeError instead of completing without
an error. -/
theorem claim_c2_counterexample :
    findParentElement treeC 0 (some "x") none none = .error .typeError :=
  rfl

/-- Claim C4: for every hyphen-case style name and nonnegative integer
pixel value v, setPixelValue followed by reading the inline style entry
for that name yields exactly the decimal string of v followed by px,
and setting undefined or the empty string followed by reading yields
the empty string. -/
theorem claim_c4 :
    ∀ (cs : ComputeSize) (name : String), isDashCase name = true →
      (∀ v : Nat,
        (cs.setPixelValue name (some (natToString v))).map
          (fun cs2 => styleRead cs2.element name) = .ok (natToString v ++ "px")) ∧
      (cs.setPixelValue name none).map (fun cs2 => styleRead cs2.element name)
        = .ok "" ∧
      (cs.setPixelValue name (some "")).map (fun cs2 => styleRead cs2.element name)
        = .ok "" := by
  intro cs name h
  refine ⟨?_, ?_, ?_⟩
  · intro v
    have hne : (natToString v == "") = false := by
      rw [beq_eq_false_iff_ne]
      exact natToString_ne_empty v
    show ((if natToString v == "" then cs.setValue name (some "")
        else cs.setValue name (some (natToString v ++ "px")))).map
        (fun cs2 => styleRead cs2.element name) = .ok (natToString v ++ "px")
    rw [if_neg (by simp [hne])]
    unfold ComputeSize.setValue
    rw [if_neg (by simp [h])]
    simp [Except.map, styleRead, lookupAssoc_setAssoc]
  · show (cs.setValue name (some "")).map (fun cs2 => styleRead cs2.element name)
        = .ok ""
    unfold ComputeSize.setValue
    rw [if_neg (by simp [h])]
    simp [Except.map, styleRead, lookupAssoc_setAssoc]
  · show ((if ("" : String) == "" then cs.setValue name (some "")
        else cs.setValue name (some ("" ++ "px")))).map
        (fun cs2 => styleRead cs2.element name) = .ok ""
    rw [if_pos (by simp)]
    unfold ComputeSize.setValue
    rw [if_neg (by simp [h])]
    simp [Except.map, styleRead, lookupAssoc_setAssoc]

/-- Witness for claim C4: writing the pixel value 42 to margin-left on
a concrete instance and reading the inline style back yields 42px. -/
theorem claim_c4_witness :
    (ComputeSize.setPixelValue (getComputeSize {}) "margin-left"
        (some (natToString 42))).map
      (fun cs2 => styleRead cs2.element "margin-left")
      = .ok (natToString 42 ++ "px") :=
  (claim_c4 (getComputeSize {}) "margin-left" (by decide)).1 42

/-- Claim C5: setOptionByClass rejects a value outside the options list
with IllegalArgument, leaving the element untouched (the error carries
no new element in the pure embedding); on success, the chosen class is
present, every other option class is absent, and getOptionByClass then
returns the chosen value. -/
theorem claim_c5 :
    (∀ (el : Element) (options : List String) (v : String), v ∉ options →
      DomUtils.setOptionByClass el options v = .error .illegalArgument) ∧
    (∀ (el : Element) (options : List String) (v : String) (el2 : Element),
      v ∈ options → DomUtils.setOptionByClass el options v = .ok el2 →
        v ∈ el2.classList ∧ (∀ o ∈ options, o ≠ v → o ∉ el2.classList) ∧
        DomUtils.getOptionByClass el2 options = some v) := by
  constructor
  · intro el options v hv
    simp [DomUtils.setOptionByClass, hv]
  · intro el options v el2 hv h
    have hc : options.contains v = true := (contains_eq_true_iff options v).mpr hv
    rw [DomUtils.setOptionByClass] at h
    rw [if_neg (by simp [hc, hv])] at h
    injection h with h2
    subst h2
    refine ⟨?_, ?_, ?_⟩
    · exact foldOpt_mem v options el.classList hv
    · intro o ho honev
      exact foldOpt_elem_not_mem v options el.classList o ho honev
    · unfold DomUtils.getOptionByClass
      exact find_first_only_v _ v options hv (foldOpt_mem v options el.classList hv)
        (fun o ho honev => foldOpt_elem_not_mem v options el.classList o ho honev)

/-- Witness for claim C5: choosing option b from the list a, b on an
element initially carrying classes a and q leaves exactly classes q and
b, and the getter then reports b. -/
theorem claim_c5_witness :
    "b" ∈ (⟨"", ["q", "b"], [], [], []⟩ : Element).classList ∧
    "a" ∉ (⟨"", ["q", "b"], [], [], []⟩ : Element).classList ∧
    DomUtils.getOptionByClass ⟨"", ["q", "b"], [], [], []⟩ ["a", "b"] = some "b" := by
  have h := claim_c5.2 ⟨"", ["a", "q"], [], [], []⟩ ["a", "b"] "b"
    ⟨"", ["q", "b"], [], [], []⟩ (by decide) (by rfl)
  exact ⟨h.1, h.2.1 "a" (by decide) (by decide), h.2.2⟩

/-- Claim C6, amended: the low-level DomUtils style helpers
setPixelValueInStyle and getPixelValueInStyle perform no name
validation and never raise, whatever the name; only the ComputeSize
accessors validate dash-case and raise IllegalArgument. -/
theorem claim_c6_amended :
    (∀ (el : Element) (name : String) (pv : Option String),
      exceptOk (DomUtils.setPixelValueInStyle el name pv) = true) ∧
    (∀ (el : Element) (name : String),
      exceptOk (DomUtils.getPixelValueInStyle el name) = true) ∧
    (∀ (cs : ComputeSize) (name : String), isDashCase name = false →
      cs.getValue name = .error .illegalArgument ∧
      ∀ v, cs.setValue name v = .error .illegalArgument) := by
  refine ⟨?_, ?_, ?_⟩
  · intro el name pv
    cases pv with
    | none => simp [DomUtils.setPixelValueInStyle, exceptOk]
    | some s =>
      by_cases hs : (s == "") = true
      · simp [DomUtils.setPixelValueInStyle, hs, exceptOk]
      · simp [DomUtils.setPixelValueInStyle, hs, exceptOk]
  · intro el name
    by_cases hv : (styleRead el name == "") = true
    · simp [DomUtils.getPixelValueInStyle, hv, exceptOk]
    · simp [DomUtils.getPixelValueInStyle, hv, exceptOk]
  · intro cs name h
    exact ⟨by simp [ComputeSize.getValue, h],
      fun v => by simp [ComputeSize.setValue, h]⟩

/-- Witness for claim C6: the camelCase name fontSize is rejected by
the ComputeSize read accessor on a concrete instance. -/
theorem claim_c6_amended_witness :
    ComputeSize.getValue (getComputeSize {}) "fontSize" = .error .illegalArgument :=
  (claim_c6_amended.2.2 (getComputeSize {}) "fontSize" (by decide)).1

/-- Counterexample to claim C6 as stated: the camelCase name marginLeft
is not dash-case, yet both low-level DomUtils style helpers accept it
and complete without any error. -/
theorem claim_c6_counterexample :
    isDashCase "marginLeft" = false ∧
    DomUtils.setPixelValueInStyle {} "marginLeft" (some "5")
      = .ok { style := [("marginLeft", "5px")] } ∧
    DomUtils.getPixelValueInStyle { style := [("marginLeft", "5px")] } "marginLeft"
      = .ok (some (some 5)) :=
  ⟨rfl, rfl, rfl⟩

/-- Claim C7: for every hyphen-case name, getPixelValue returns the
base-10 parse of the computed-style string with its last two characters
removed, whatever that string is, and raises nothing; a non-pixel value
such as auto yields the NaN result rather than an error. -/
theorem claim_c7 :
    ∀ (cs : ComputeSize) (name : String), isDashCase name = true →
      cs.getPixelValue name
        = .ok (jsParseInt (((lookupAssoc cs.computeStyle name).getD "").dropRight 2)) := by
  intro cs name h
  unfold ComputeSize.getPixelValue ComputeSize.getValue
  rw [if_neg (by simp [h])]
  rfl

/-- Witness for claim C7: with computed height auto, the truncate-two
then parse recipe gives the NaN result, with no error raised. -/
theorem claim_c7_witness :
    ComputeSize.getPixelValue
      (getComputeSize { computeStyle := [("height", "auto")] }) "height"
      = .ok none := by
  rw [claim_c7 (getComputeSize { computeStyle := [("height", "auto")] }) "height"
    (by decide)]
  rfl

/-- Claim C8: storing an integer under a camelCase dataset key and
reading it back returns exactly that integer, and reading a never-set
key returns the unset indicator, not zero. -/
theorem claim_c8 :
    (∀ (el : Element) (k : String) (v : Int), isCamelCase k = true →
      (DomUtils.setIntegerInDataset el k v).map
        (fun el2 => DomUtils.getIntegerInDataset el2 k) = .ok (some (some v))) ∧
    (∀ (el : Element) (k : String), lookupAssoc el.dataset k = none →
      DomUtils.getIntegerInDataset el k = none) := by
  constructor
  · intro el k v h
    unfold DomUtils.setIntegerInDataset
    rw [if_neg (by simp [h])]
    simp [DomUtils.getIntegerInDataset, Except.map, lookupAssoc_setAssoc,
      jsParseInt_intToString]
  · intro el k h
    simp [DomUtils.getIntegerInDataset, h]

/-- Witness for claim C8: the negative integer -37 survives the
set-then-get round trip under the camelCase key counterValue. -/
theorem claim_c8_witness :
    (DomUtils.setIntegerInDataset {} "counterValue" (-37)).map
      (fun el2 => DomUtils.getIntegerInDataset el2 "counterValue")
      = .ok (some (some (-37))) :=
  claim_c8.1 {} "counterValue" (-37) (by decide)

/-- Claim C9: the boolean dataset getter returns true exactly when the
stored string is the literal true, and returns false both for an absent
key and for any other stored string; in particular explicitly storing
false reads back exactly like a never-set key. -/
theorem claim_c9 :
    (∀ (el : Element) (k : String),
      DomUtils.getBooleanInDataset el k = true ↔
        lookupAssoc el.dataset k = some "true") ∧
    (∀ (el : Element) (k : String), lookupAssoc el.dataset k = none →
      DomUtils.getBooleanInDataset el k = false) ∧
    (∀ (el : Element) (k s : String), lookupAssoc el.dataset k = some s →
      s ≠ "true" → DomUtils.getBooleanInDataset el k = false) ∧
    (∀ (el : Element) (k : String), isCamelCase k = true →
      (DomUtils.setBooleanInDataset el k false).map
        (fun el2 => DomUtils.getBooleanInDataset el2 k) = .ok false) := by
  refine ⟨?_, ?_, ?_, ?_⟩
  · intro el k
    simp [DomUtils.getBooleanInDataset]
  · intro el k h
    simp [DomUtils.getBooleanInDataset, h]
  · intro el k s h hs
    simp [DomUtils.getBooleanInDataset, h, hs]
  · intro el k h
    unfold DomUtils.setBooleanInDataset
    rw [if_neg (by simp [h])]
    simp [DomUtils.getBooleanInDataset, Except.map, lookupAssoc_setAssoc]

/-- Witness for claim C9: storing false under the camelCase key
flagValue and reading it back gives false, the same answer as for a
never-set key. -/
theorem claim_c9_witness :
    (DomUtils.setBooleanInDataset {} "flagValue" false).map
      (fun el2 => DomUtils.getBooleanInDataset el2 "flagValue") = .ok false :=
  claim_c9.2.2.2 {} "flagValue" (by decide)

/-- Claim C10, amended: on dash-case names the two ComputeSize
implementations agree on all four operations (the validated one
returning ok of what the unvalidated one returns, with identical
writes), but they are not equivalent in error behaviour: for a
non-dash-case name the src implementation raises IllegalArgument where
the unnamed implementation proceeds without any error (see the
counterexample). -/
theorem claim_c10_amended :
    (∀ (cs : ComputeSize) (name : String), isDashCase name = true →
      cs.getValue name = .ok (ComputeSizeU.getValue cs name) ∧
      (∀ v, cs.setValue name v = .ok (ComputeSizeU.setValue cs name v)) ∧
      cs.getPixelValue name = .ok (ComputeSizeU.getPixelValue cs name) ∧
      (∀ v, cs.setPixelValue name v = .ok (ComputeSizeU.setPixelValue cs name v))) ∧
    (∀ (cs : ComputeSize) (name : String), isDashCase name = false →
      cs.getValue name = .error .illegalArgument ∧
      (∀ v, cs.setValue name v = .error .illegalArgument)) := by
  constructor
  · intro cs name h
    refine ⟨?_, ?_, ?_, ?_⟩
    · simp [ComputeSize.getValue, ComputeSizeU.getValue, h]
    · intro v
      simp [ComputeSize.setValue, ComputeSizeU.setValue, h]
    · simp [ComputeSize.getPixelValue, ComputeSize.getValue,
        ComputeSizeU.getPixelValue, ComputeSizeU.getValue, h, Except.map]
    · intro v
      cases v with
      | none =>
        simp [ComputeSize.setPixelValue, ComputeSizeU.setPixelValue,
          ComputeSize.setValue, ComputeSizeU.setValue, h]
      | some s =>
        by_cases hs : (s == "") = true
        · simp [ComputeSize.setPixelValue, ComputeSizeU.setPixelValue,
            ComputeSize.setValue, ComputeSizeU.setValue, h, hs]
        · simp [ComputeSize.setPixelValue, ComputeSizeU.setPixelValue,
            ComputeSize.setValue, ComputeSizeU.setValue, h, hs]
  · intro cs name h
    exact ⟨by simp [ComputeSize.getValue, h],
      fun v => by simp [ComputeSize.setValue, h]⟩

/-- Witness for claim C10: on the dash-case name width the two
implementations return the same computed value. -/
theorem claim_c10_amended_witness :
    ComputeSize.getValue (getComputeSize { computeStyle := [("width", "9px")] })
      "width"
      = .ok (ComputeSizeU.getValue
          (getComputeSize { computeStyle := [("width", "9px")] }) "width") :=
  (claim_c10_amended.1 (getComputeSize { computeStyle := [("width", "9px")] })
    "width" (by decide)).1

/-- Counterexample to claim C10 as stated: on the non-dash-case name
marginLeft the src implementation raises IllegalArgument while the
unnamed implementation completes and returns the computed value, so the
two implementations do not raise errors in the same cases. -/
theorem claim_c10_counterexample :
    ComputeSize.getValue (getComputeSize { computeStyle := [("marginLeft", "7px")] })
      "marginLeft" = .error .illegalArgument ∧
    ComputeSizeU.getValue (getComputeSize { computeStyle := [("marginLeft", "7px")] })
      "marginLeft" = "7px" :=
  ⟨rfl, rfl⟩
